import Mathlib

/-!
Verification of the Worms Armageddon map maker (make_map.py).

Byte strings are modelled as `List Nat` (one entry per byte).  Python slices,
big-endian reads and latin-1 lowercasing are embedded directly; the two chunk
scan loops of the source are transcribed as well-founded recursions on the
remaining length.  Pillow library calls (resize, quantize, PNG save) are
modelled as explicit parameters with their documented contracts, so every
theorem about `convert_image` is quantified over any library behaviour
satisfying those contracts.
-/

namespace WAMap

/-- Python slice data[a:b] on a byte list (indices clamp as in Python). -/
def pySlice (data : List Nat) (a b : Nat) : List Nat :=
  (data.drop a).take (b - a)

/-- Big-endian 32-bit integer read of data[o:o+4], as struct.unpack with
format string of a big-endian unsigned int does (call sites guarantee the
four bytes exist). -/
def readBE32 (data : List Nat) (o : Nat) : Nat :=
  data.getD o 0 * 16777216 + data.getD (o + 1) 0 * 65536 +
    data.getD (o + 2) 0 * 256 + data.getD (o + 3) 0

/-- Lowercase of a single latin-1 byte, as Python str.lower acts on a
latin-1-decoded character: ASCII uppercase and the latin-1 uppercase block
(except the multiplication sign 0xD7) move down by 32. -/
def latin1Lower (b : Nat) : Nat :=
  if 65 ≤ b ∧ b ≤ 90 then b + 32
  else if 192 ≤ b ∧ b ≤ 222 ∧ b ≠ 215 then b + 32
  else b

/-- Lowercase a latin-1 byte string. -/
def lowerBytes (s : List Nat) : List Nat := s.map latin1Lower

/-- Loop of find_custom_chunk (make_map.py lines 68-78): scan chunks from
`offset`, returning the raw bytes data[offset:offset+8+length+4] of the
first chunk whose lowered type code is among `lowerNames`. -/
def findChunkLoop (data : List Nat) (lowerNames : List (List Nat))
    (offset : Nat) : Option (List Nat) :=
  if h : offset + 8 ≤ data.length then
    if lowerBytes (pySlice data (offset + 4) (offset + 8)) ∈ lowerNames then
      some (pySlice data offset (offset + 8 + readBE32 data offset + 4))
    else
      findChunkLoop data lowerNames (offset + 8 + readBE32 data offset + 4)
  else
    none
termination_by data.length - offset
decreasing_by omega

/-- find_custom_chunk (make_map.py lines 58-78): the names are lowered and
the scan starts at offset 8, right after the PNG signature. -/
def find_custom_chunk (data : List Nat) (names : List (List Nat)) :
    Option (List Nat) :=
  findChunkLoop data (names.map lowerBytes) 8

/-- The four bytes of the ASCII type code IEND. -/
def iendType : List Nat := [73, 69, 78, 68]

/-- Loop of insert_chunk_before_iend (make_map.py lines 89-98): scan chunks
from `offset`; at the first chunk typed IEND splice `chunk` in before it;
if the scan falls off the end, append `chunk` instead. -/
def insertChunkLoop (png_data chunk : List Nat) (offset : Nat) : List Nat :=
  if h : offset + 8 ≤ png_data.length then
    if pySlice png_data (offset + 4) (offset + 8) = iendType then
      png_data.take offset ++ chunk ++ png_data.drop offset
    else
      insertChunkLoop png_data chunk (offset + 8 + readBE32 png_data offset + 4)
  else
    png_data ++ chunk
termination_by png_data.length - offset
decreasing_by omega

/-- insert_chunk_before_iend (make_map.py lines 81-98). -/
def insert_chunk_before_iend (png_data chunk : List Nat) : List Nat :=
  insertChunkLoop png_data chunk 8

/-- ensure_divisible_by_8 (make_map.py lines 101-112): each dimension is
rounded down to a multiple of 8, and a zero result becomes 8 (Python
`(w // 8) * 8 or 8`). -/
def ensure_divisible_by_8 (size : Nat × Nat) : Nat × Nat :=
  (if (size.1 / 8) * 8 = 0 then 8 else (size.1 / 8) * 8,
   if (size.2 / 8) * 8 = 0 then 8 else (size.2 / 8) * 8)

/-- The list of offsets the chunk scan loops visit, from a given start. -/
def chunkOffsetsFrom (data : List Nat) (offset : Nat) : List Nat :=
  if h : offset + 8 ≤ data.length then
    offset :: chunkOffsetsFrom data (offset + 8 + readBE32 data offset + 4)
  else
    []
termination_by data.length - offset
decreasing_by omega

/-- The list of offsets the chunk scan loops visit, starting at offset 8. -/
def chunkOffsets (data : List Nat) : List Nat := chunkOffsetsFrom data 8

/-- Does the chunk at offset o have a type code whose lowering is among
`lowerNames`? -/
def matchesAt (data : List Nat) (lowerNames : List (List Nat)) (o : Nat) :
    Bool :=
  decide (lowerBytes (pySlice data (o + 4) (o + 8)) ∈ lowerNames)

/-- The raw byte range of the chunk at offset o: 4-byte length, 4-byte type,
payload and 4-byte CRC, clamped to the end of the data. -/
def chunkAt (data : List Nat) (o : Nat) : List Nat :=
  pySlice data o (o + 8 + readBE32 data o + 4)

/-- Is the chunk at offset o an IEND chunk? -/
def isIendAt (data : List Nat) (o : Nat) : Bool :=
  decide (pySlice data (o + 4) (o + 8) = iendType)

/-- Offset of the first IEND chunk the scan finds, if any. -/
def iendOffset (data : List Nat) : Option Nat :=
  (chunkOffsets data).find? (isIendAt data)

/-- The offset the scan loops advance to from offset o. -/
def nextChunkOffset (data : List Nat) (o : Nat) : Nat :=
  o + 8 + readBE32 data o + 4

/-- Number of iterations the find_custom_chunk loop performs from a given
offset: one per examined chunk, stopping at a match or past the end. -/
def findIterCount (data : List Nat) (lowerNames : List (List Nat))
    (offset : Nat) : Nat :=
  if h : offset + 8 ≤ data.length then
    if lowerBytes (pySlice data (offset + 4) (offset + 8)) ∈ lowerNames then 1
    else 1 + findIterCount data lowerNames (nextChunkOffset data offset)
  else 0
termination_by data.length - offset
decreasing_by simp only [nextChunkOffset]; omega

/-- Number of iterations the insert_chunk_before_iend loop performs from a
given offset. -/
def insertIterCount (data : List Nat) (offset : Nat) : Nat :=
  if h : offset + 8 ≤ data.length then
    if pySlice data (offset + 4) (offset + 8) = iendType then 1
    else 1 + insertIterCount data (nextChunkOffset data offset)
  else 0
termination_by data.length - offset
decreasing_by simp only [nextChunkOffset]; omega

/-- An RGBA raster image: width, height, and a row-major pixel list of
(r, g, b, a) byte quadruples. -/
structure RGBAImage where
  width : Nat
  height : Nat
  pixels : List (Nat × Nat × Nat × Nat)
deriving Repr, DecidableEq

/-- An 8-bit palette-mode image, as Pillow mode P: each pixel is an index
into a flat palette list of 3 ints (r, g, b) per entry. -/
structure PImage where
  width : Nat
  height : Nat
  indices : List Nat
  palette : List Nat
deriving Repr, DecidableEq

/-- Channel mask of lines 172-174: 255 where the channel value equals the
transparent component, otherwise 0. -/
def maskVal (v c : Nat) : Nat := if v = c then 255 else 0

/-- Per-pixel transparency mask of lines 172-176: bitwise AND (the chop
operation behind ImageChops.logical_and) of the three channel masks, so 255
exactly when all three channels match. -/
def transMaskPx (tc : Nat × Nat × Nat) (p : Nat × Nat × Nat × Nat) : Nat :=
  Nat.land (maskVal p.1 tc.1)
    (Nat.land (maskVal p.2.1 tc.2.1) (maskVal p.2.2.1 tc.2.2))

/-- Lines 166-180: build the alpha layer (opaque 255 everywhere, 0 pasted
where the mask is set) and install it with putalpha. -/
def applyTransparencyMask (img : RGBAImage) (tc : Nat × Nat × Nat) :
    RGBAImage :=
  { img with
    pixels := img.pixels.map fun p =>
      (p.1, p.2.1, p.2.2.1, if transMaskPx tc p = 0 then 255 else 0) }

/-- Line 184: convert("RGB") drops the alpha channel, keeping only the
colour channels of every pixel. -/
def rgbPixels (img : RGBAImage) : List (Nat × Nat × Nat) :=
  img.pixels.map fun p => (p.1, p.2.1, p.2.2.1)

/-- Lines 192-203: when a transparent colour was requested, append it to
the palette as one extra entry and record its index (palette room permitting;
a full 256-entry palette falls back to index 0 unchanged). -/
def addTransparency (q : PImage) (tc : Option (Nat × Nat × Nat)) :
    PImage × Option Nat :=
  match tc with
  | none => (q, none)
  | some c =>
    if q.palette.length / 3 < 256 then
      ({ q with palette := q.palette ++ [c.1, c.2.1, c.2.2] },
       some ((q.palette ++ [c.1, c.2.1, c.2.2]).length / 3 - 1))
    else
      (q, some 0)

/-- Modelled from Pillow PNG saving with an integer transparency argument:
the tRNS chunk gives alpha 0 to exactly the palette entry at the
transparency index, and every other entry stays fully opaque (255).  With
no transparency index every entry is opaque. -/
def savedEntryAlpha (tIdx : Option Nat) (j : Nat) : Nat :=
  match tIdx with
  | none => 255
  | some t => if j = t then 0 else 255

/-- Number of (r, g, b) entries of a palette-mode image. -/
def paletteEntries (q : PImage) : Nat := q.palette.length / 3

/-- Contract of a single Pillow quantize result for a requested maximum
colour count: size is preserved, one index per input pixel, at most the
requested number of palette entries, at least one entry, and every pixel
index points inside the palette. -/
def QuantizeOK (colors : Nat) (size : Nat × Nat)
    (px : List (Nat × Nat × Nat)) (q : PImage) : Prop :=
  q.width = size.1 ∧ q.height = size.2 ∧ q.indices.length = px.length ∧
  q.palette.length ≤ 3 * colors ∧ 1 ≤ q.palette.length / 3 ∧
  ∀ i ∈ q.indices, i < q.palette.length / 3

/-- Modelled from Pillow: any behaviour of Image.quantize consistent with
its documentation, for any positive colour budget. -/
def QuantizeContract
    (quantize : Nat × Nat → List (Nat × Nat × Nat) → Nat → Bool → PImage) :
    Prop :=
  ∀ size px colors d, 1 ≤ colors → QuantizeOK colors size px (quantize size px colors d)

/-- Modelled from Pillow: Image.resize returns an image of the requested
size. -/
def ResizeContract (resize : RGBAImage → Nat × Nat → RGBAImage) : Prop :=
  ∀ img s, (resize img s).width = s.1 ∧ (resize img s).height = s.2

/-- Lines 156-161: the loaded image, resized (when needed) so that both
dimensions are multiples of 8. -/
def coreSrc (resize : RGBAImage → Nat × Nat → RGBAImage) (img : RGBAImage) :
    RGBAImage :=
  if ensure_divisible_by_8 (img.width, img.height) ≠ (img.width, img.height) then
    resize img (ensure_divisible_by_8 (img.width, img.height))
  else img

/-- Lines 166-180: the resized image with the transparency mask applied
when a transparent colour was requested. -/
def coreMasked (resize : RGBAImage → Nat × Nat → RGBAImage) (img : RGBAImage)
    (tc : Option (Nat × Nat × Nat)) : RGBAImage :=
  match tc with
  | some c => applyTransparencyMask (coreSrc resize img) c
  | none => coreSrc resize img

/-- Lines 182-186: the quantized palette image produced from the RGB data
of the masked image. -/
def coreQuantized (resize : RGBAImage → Nat × Nat → RGBAImage)
    (quantize : Nat × Nat → List (Nat × Nat × Nat) → Nat → Bool → PImage)
    (img : RGBAImage) (maxColours : Nat) (tc : Option (Nat × Nat × Nat))
    (dither : Bool) : PImage :=
  quantize ((coreMasked resize img tc).width, (coreMasked resize img tc).height)
    (rgbPixels (coreMasked resize img tc)) maxColours dither

/-- Lines 155-203 of convert_image, parameterised over the Pillow resize
and quantize behaviours: normalise the size, apply the transparency mask
when requested, quantize the RGB data, and add the extra transparent
palette entry.  Returns the palette image handed to save together with the
transparency index passed as the save argument. -/
def convertCore (resize : RGBAImage → Nat × Nat → RGBAImage)
    (quantize : Nat × Nat → List (Nat × Nat × Nat) → Nat → Bool → PImage)
    (img : RGBAImage) (maxColours : Nat) (tc : Option (Nat × Nat × Nat))
    (dither : Bool) : PImage × Option Nat :=
  addTransparency (coreQuantized resize quantize img maxColours tc dither) tc

/-- The lowered chunk names the source passes: w2lv and walv (line 217). -/
def waChunkNames : List (List Nat) :=
  [[119, 50, 108, 118], [119, 97, 108, 118]]

/-- Lines 213-219: when template bytes were read, look for the custom chunk
and, when a non-empty one was found (Python truthiness of the bytes),
splice it in before IEND. -/
def templateStage (pngData : List Nat) (templateBytes : Option (List Nat)) :
    List Nat :=
  match templateBytes with
  | none => pngData
  | some tb =>
    match find_custom_chunk tb waChunkNames with
    | some c => if c.isEmpty then pngData else insert_chunk_before_iend pngData c
    | none => pngData

/-- Externally visible actions of one convert_image run, in program order. -/
inductive Effect where
  | readInput : Effect
  | readTemplate : Effect
  | writeOutput : List Nat → Effect
deriving Repr, DecidableEq

/-- convert_image (make_map.py lines 115-224), parameterised over the
Pillow behaviours and the PNG encoder: validate max_colours first and raise
(error, empty effect trace) when it is out of range; otherwise read the
input, run the pipeline, optionally read the template and splice its chunk,
and write the final bytes. -/
def convertImage (resize : RGBAImage → Nat × Nat → RGBAImage)
    (quantize : Nat × Nat → List (Nat × Nat × Nat) → Nat → Bool → PImage)
    (encode : PImage → Option Nat → List Nat)
    (maxColours : Int) (img : RGBAImage)
    (templateBytes : Option (List Nat)) (tc : Option (Nat × Nat × Nat))
    (dither : Bool) : List Effect × Except String Unit :=
  if maxColours < 1 ∨ maxColours > 112 then
    ([], Except.error "max_colours must be between 1 and 112")
  else
    let core := convertCore resize quantize img maxColours.toNat tc dither
    let pngData := encode core.1 core.2
    let tmplEffects : List Effect :=
      match templateBytes with
      | none => []
      | some _ => [Effect.readTemplate]
    (Effect.readInput :: tmplEffects ++
       [Effect.writeOutput (templateStage pngData templateBytes)],
     Except.ok ())

/-- The bytes the run wrote to the output file, if any. -/
def writtenBytes (r : List Effect × Except String Unit) : Option (List Nat) :=
  r.1.findSome? fun e =>
    match e with
    | Effect.writeOutput b => some b
    | _ => none

/-- Offset of the first chunk whose lowered type code is among the lowered
names, if any: the first-match characterization of the find loop. -/
def findMatchOffset (data : List Nat) (names : List (List Nat)) : Option Nat :=
  (chunkOffsets data).find? (matchesAt data (names.map lowerBytes))

/-- A resize behaviour returning an image of the requested size (used as a
concrete instance of ResizeContract). -/
def sizeResize (img : RGBAImage) (s : Nat × Nat) : RGBAImage :=
  { width := s.1, height := s.2, pixels := img.pixels }

/-- A quantize behaviour mapping every pixel to index 0 of a one-entry
palette (a concrete instance of QuantizeContract). -/
def constQuantize (size : Nat × Nat) (px : List (Nat × Nat × Nat))
    (colors : Nat) (dither : Bool) : PImage :=
  { width := size.1, height := size.2,
    indices := List.replicate px.length 0, palette := [0, 0, 0] }

/-- Example bytes: 8 signature bytes followed by one chunk of declared
length 2 whose type code is waLV. -/
def tbEx : List Nat :=
  [137, 80, 78, 71, 13, 10, 26, 10,
   0, 0, 0, 2, 119, 97, 76, 86, 1, 2, 9, 9, 9, 9]

/-- The raw waLV chunk inside tbEx (offsets 8 to 22). -/
def waChunkEx : List Nat := [0, 0, 0, 2, 119, 97, 76, 86, 1, 2, 9, 9, 9, 9]

/-- Example PNG bytes: signature, an empty IHDR-typed chunk at offset 8,
then the IEND chunk at offset 20. -/
def pngEx : List Nat :=
  [137, 80, 78, 71, 13, 10, 26, 10,
   0, 0, 0, 0, 73, 72, 68, 82, 0, 0, 0, 0,
   0, 0, 0, 0, 73, 69, 78, 68, 174, 66, 96, 130]

/-- Example bytes whose single matching chunk declares a length running far
past the end of the data. -/
def truncEx : List Nat :=
  [137, 80, 78, 71, 13, 10, 26, 10,
   0, 0, 0, 100, 119, 97, 76, 86]

/-- A PNG-encoding behaviour that always produces pngEx (closed encoder
instance for witnesses). -/
def constEncode (q : PImage) (tIdx : Option Nat) : List Nat := pngEx

/-- An 8 by 8 image every pixel of which is opaque black. -/
def blackImg : RGBAImage :=
  { width := 8, height := 8, pixels := List.replicate 64 (0, 0, 0, 255) }

/-- A trivial empty image. -/
def emptyImg : RGBAImage := { width := 0, height := 0, pixels := [] }

/-- A 17 by 3 image with no pixel data (only the dimensions matter for the
size theorems). -/
def c3Img : RGBAImage := { width := 17, height := 3, pixels := [] }

theorem findChunkLoop_eq_scan (data : List Nat) (lnames : List (List Nat)) :
    ∀ o, findChunkLoop data lnames o
      = ((chunkOffsetsFrom data o).find? (matchesAt data lnames)).map
          (chunkAt data) := by
  have key : ∀ n o, data.length - o ≤ n →
      findChunkLoop data lnames o
        = ((chunkOffsetsFrom data o).find? (matchesAt data lnames)).map
            (chunkAt data) := by
    intro n
    induction n with
    | zero =>
      intro o ho
      rw [findChunkLoop, chunkOffsetsFrom, dif_neg (by omega), dif_neg (by omega)]
      rfl
    | succ n ih =>
      intro o ho
      rw [findChunkLoop, chunkOffsetsFrom]
      by_cases h : o + 8 ≤ data.length
      · rw [dif_pos h, dif_pos h]
        by_cases hm : lowerBytes (pySlice data (o + 4) (o + 8)) ∈ lnames
        · rw [if_pos hm, List.find?_cons_of_pos _ (by simp [matchesAt, hm])]
          rfl
        · rw [if_neg hm, List.find?_cons_of_neg _ (by simp [matchesAt, hm])]
          exact ih _ (by omega)
      · rw [dif_neg h, dif_neg h]
        rfl
  exact fun o => key data.length o (by omega)


theorem insertChunkLoop_eq_scan (png c : List Nat) :
    ∀ o, insertChunkLoop png c o
      = match (chunkOffsetsFrom png o).find? (isIendAt png) with
        | some i => png.take i ++ c ++ png.drop i
        | none => png ++ c := by
  have key : ∀ n o, png.length - o ≤ n →
      insertChunkLoop png c o
        = match (chunkOffsetsFrom png o).find? (isIendAt png) with
          | some i => png.take i ++ c ++ png.drop i
          | none => png ++ c := by
    intro n
    induction n with
    | zero =>
      intro o ho
      rw [insertChunkLoop, chunkOffsetsFrom, dif_neg (by omega),
        dif_neg (by omega)]
      rfl
    | succ n ih =>
      intro o ho
      rw [insertChunkLoop, chunkOffsetsFrom]
      by_cases h : o + 8 ≤ png.length
      · rw [dif_pos h, dif_pos h]
        by_cases hm : pySlice png (o + 4) (o + 8) = iendType
        · rw [if_pos hm, List.find?_cons_of_pos _ (by simp [isIendAt, hm])]
        · rw [if_neg hm, List.find?_cons_of_neg _ (by simp [isIendAt, hm])]
          exact ih _ (by omega)
      · rw [dif_neg h, dif_neg h]
        rfl
  exact fun o => key png.length o (by omega)


theorem mem_chunkOffsetsFrom (data : List Nat) :
    ∀ o o', o' ∈ chunkOffsetsFrom data o → o' + 8 ≤ data.length := by
  have key : ∀ n o o', data.length - o ≤ n →
      o' ∈ chunkOffsetsFrom data o → o' + 8 ≤ data.length := by
    intro n
    induction n with
    | zero =>
      intro o o' ho hmem
      rw [chunkOffsetsFrom, dif_neg (by omega)] at hmem
      simp at hmem
    | succ n ih =>
      intro o o' ho hmem
      rw [chunkOffsetsFrom] at hmem
      by_cases h : o + 8 ≤ data.length
      · rw [dif_pos h] at hmem
        rcases List.mem_cons.mp hmem with h1 | h1
        · omega
        · exact ih _ _ (by omega) h1
      · rw [dif_neg h] at hmem
        simp at hmem
  exact fun o o' => key data.length o o' (by omega)


theorem findIterCount_bound (data : List Nat) (lnames : List (List Nat)) :
    ∀ o, 12 * findIterCount data lnames o ≤ data.length + 12 - o := by
  have key : ∀ n o, data.length - o ≤ n →
      12 * findIterCount data lnames o ≤ data.length + 12 - o := by
    intro n
    induction n with
    | zero =>
      intro o ho
      rw [findIterCount, dif_neg (by omega)]
      omega
    | succ n ih =>
      intro o ho
      rw [findIterCount]
      by_cases h : o + 8 ≤ data.length
      · rw [dif_pos h]
        by_cases hm : lowerBytes (pySlice data (o + 4) (o + 8)) ∈ lnames
        · rw [if_pos hm]; omega
        · rw [if_neg hm]
          have hnext := ih (nextChunkOffset data o)
            (by simp only [nextChunkOffset]; omega)
          simp only [nextChunkOffset] at hnext ⊢
          omega
      · rw [dif_neg h]; omega
  exact fun o => key data.length o (by omega)


theorem insertIterCount_bound (data : List Nat) :
    ∀ o, 12 * insertIterCount data o ≤ data.length + 12 - o := by
  have key : ∀ n o, data.length - o ≤ n →
      12 * insertIterCount data o ≤ data.length + 12 - o := by
    intro n
    induction n with
    | zero =>
      intro o ho
      rw [insertIterCount, dif_neg (by omega)]
      omega
    | succ n ih =>
      intro o ho
      rw [insertIterCount]
      by_cases h : o + 8 ≤ data.length
      · rw [dif_pos h]
        by_cases hm : pySlice data (o + 4) (o + 8) = iendType
        · rw [if_pos hm]; omega
        · rw [if_neg hm]
          have hnext := ih (nextChunkOffset data o)
            (by simp only [nextChunkOffset]; omega)
          simp only [nextChunkOffset] at hnext ⊢
          omega
      · rw [dif_neg h]; omega
  exact fun o => key data.length o (by omega)

theorem find_custom_chunk_eq_firstMatch (data : List Nat)
    (names : List (List Nat)) :
    find_custom_chunk data names
      = (findMatchOffset data names).map (chunkAt data) :=
  findChunkLoop_eq_scan data (names.map lowerBytes) 8

theorem insert_chunk_eq_iendOffset (png c : List Nat) :
    insert_chunk_before_iend png c
      = match iendOffset png with
        | some i => png.take i ++ c ++ png.drop i
        | none => png ++ c :=
  insertChunkLoop_eq_scan png c 8

theorem mem_chunkOffsets (data : List Nat) (o : Nat)
    (h : o ∈ chunkOffsets data) : o + 8 ≤ data.length :=
  mem_chunkOffsetsFrom data 8 o h

theorem chunkAt_length (data : List Nat) (o : Nat) :
    (chunkAt data o).length
      = min (8 + readBE32 data o + 4) (data.length - o) := by
  simp [chunkAt, pySlice]
  omega

theorem find_custom_chunk_some (data : List Nat) (names : List (List Nat))
    (c : List Nat) (h : find_custom_chunk data names = some c) :
    ∃ o, findMatchOffset data names = some o ∧ c = chunkAt data o ∧
      o + 8 ≤ data.length := by
  rw [find_custom_chunk_eq_firstMatch] at h
  rcases Option.map_eq_some'.mp h with ⟨o, ho, hc⟩
  exact ⟨o, ho, hc.symm,
    mem_chunkOffsets data o (List.mem_of_find?_eq_some ho)⟩

theorem find_custom_chunk_some_ne_nil (data : List Nat)
    (names : List (List Nat)) (c : List Nat)
    (h : find_custom_chunk data names = some c) : c ≠ [] := by
  rcases find_custom_chunk_some data names c h with ⟨o, _, hc, ho⟩
  have hl := chunkAt_length data o
  intro hnil
  rw [← hc, hnil] at hl
  simp at hl
  omega

theorem addTransparency_some_eq (q : PImage) (c : Nat × Nat × Nat)
    (h : q.palette.length / 3 < 256) :
    addTransparency q (some c)
      = ({ q with palette := q.palette ++ [c.1, c.2.1, c.2.2] },
         some (q.palette.length / 3)) := by
  rw [addTransparency, if_pos h]
  have : (q.palette ++ [c.1, c.2.1, c.2.2]).length / 3 - 1
      = q.palette.length / 3 := by
    simp only [List.length_append, List.length_cons, List.length_nil]
    omega
  rw [this]

theorem sizeResize_contract : ResizeContract sizeResize :=
  fun img s => ⟨rfl, rfl⟩

theorem constQuantize_contract : QuantizeContract constQuantize := by
  intro size px colors d hc
  refine ⟨rfl, rfl, by simp [constQuantize], ?_, by simp [constQuantize], ?_⟩
  · simp [constQuantize]
    omega
  · intro i hi
    simp [constQuantize] at hi
    simp [constQuantize, hi.2]

theorem chunkOffsets_tbEx : chunkOffsets tbEx = [8] := by
  rw [chunkOffsets, chunkOffsetsFrom, dif_pos (by decide)]
  norm_num [tbEx, readBE32]
  rw [chunkOffsetsFrom, dif_neg (by decide)]

theorem chunkOffsets_pngEx : chunkOffsets pngEx = [8, 20] := by
  rw [chunkOffsets, chunkOffsetsFrom, dif_pos (by decide)]
  norm_num [pngEx, readBE32]
  rw [chunkOffsetsFrom, dif_pos (by decide)]
  norm_num [pngEx, readBE32]
  rw [chunkOffsetsFrom, dif_neg (by decide)]

theorem chunkOffsets_truncEx : chunkOffsets truncEx = [8] := by
  rw [chunkOffsets, chunkOffsetsFrom, dif_pos (by decide)]
  norm_num [truncEx, readBE32]
  rw [chunkOffsetsFrom, dif_neg (by decide)]

theorem findMatchOffset_tbEx : findMatchOffset tbEx waChunkNames = some 8 := by
  rw [findMatchOffset, chunkOffsets_tbEx]
  decide

theorem findMatchOffset_truncEx :
    findMatchOffset truncEx waChunkNames = some 8 := by
  rw [findMatchOffset, chunkOffsets_truncEx]
  decide

theorem find_tbEx : find_custom_chunk tbEx waChunkNames = some waChunkEx := by
  rw [find_custom_chunk, findChunkLoop, dif_pos (by decide), if_pos (by decide)]
  decide

theorem iendOffset_pngEx : iendOffset pngEx = some 20 := by
  rw [iendOffset, chunkOffsets_pngEx]
  decide

/-- C6: find_custom_chunk scans chunks sequentially from offset 8 (after
the PNG signature) and returns the raw bytes (4-byte big-endian length,
4-byte type code, payload and 4-byte CRC) of the first chunk whose type
code matches one of the names case-insensitively, and none when no chunk
matches; when the matching chunk lies entirely within the data the
returned slice is exactly 12 + length bytes long. -/
theorem C6_find_first_matching_chunk (data : List Nat)
    (names : List (List Nat)) :
    find_custom_chunk data names
      = (findMatchOffset data names).map (chunkAt data) ∧
    ∀ o, findMatchOffset data names = some o →
      o + 8 + readBE32 data o + 4 ≤ data.length →
      (chunkAt data o).length = 12 + readBE32 data o := by
  refine ⟨find_custom_chunk_eq_firstMatch data names, ?_⟩
  intro o ho hfit
  have hmem := mem_chunkOffsets data o (List.mem_of_find?_eq_some ho)
  have hlen := chunkAt_length data o
  omega

/-- Witness for C6 at concrete bytes: the waLV chunk of tbEx is found at
offset 8 and its returned slice is exactly 12 + 2 bytes. -/
theorem C6_witness :
    find_custom_chunk tbEx waChunkNames
      = (findMatchOffset tbEx waChunkNames).map (chunkAt tbEx) ∧
    (chunkAt tbEx 8).length = 12 + readBE32 tbEx 8 :=
  ⟨(C6_find_first_matching_chunk tbEx waChunkNames).1,
   (C6_find_first_matching_chunk tbEx waChunkNames).2 8 findMatchOffset_tbEx
     (by decide)⟩

/-- C7: insert_chunk_before_iend returns png_data with the chunk spliced in
immediately before the first IEND chunk found by the sequential scan from
offset 8, and returns png_data with the chunk appended at the end when the
scan finds no IEND chunk. -/
theorem C7_insert_before_iend_or_append (png c : List Nat) :
    insert_chunk_before_iend png c
      = match iendOffset png with
        | some i => png.take i ++ c ++ png.drop i
        | none => png ++ c :=
  insert_chunk_eq_iendOffset png c

/-- C8: both scan loops advance the offset by at least 12 per iteration, so
from the start offset 8 each runs at most length / 12 + 1 iterations; in
the embedding both loops are total functions of the input bytes. -/
theorem C8_scan_linear_iterations (data png : List Nat)
    (lnames : List (List Nat)) :
    (∀ o, o + 12 ≤ nextChunkOffset data o) ∧
    findIterCount data lnames 8 ≤ data.length / 12 + 1 ∧
    insertIterCount png 8 ≤ png.length / 12 + 1 := by
  refine ⟨fun o => ?_, ?_, ?_⟩
  · show o + 12 ≤ o + 8 + readBE32 data o + 4
    omega
  · have h := findIterCount_bound data lnames 8
    omega
  · have h := insertIterCount_bound png 8
    omega

/-- C9: insert_chunk_before_iend yields exactly the original bytes with the
chunk spliced in at a single position: the length is the sum of both
lengths, and the result splits as an unchanged png front part, the chunk,
and the matching unchanged png remainder. -/
theorem C9_insert_preserves_bytes (png c : List Nat) :
    (insert_chunk_before_iend png c).length = png.length + c.length ∧
    ∃ i, i ≤ png.length ∧
      insert_chunk_before_iend png c = png.take i ++ c ++ png.drop i ∧
      png.take i ++ png.drop i = png := by
  have h := insert_chunk_eq_iendOffset png c
  rcases hf : iendOffset png with _ | i
  · rw [hf] at h
    have h2 : insert_chunk_before_iend png c = png ++ c := h
    refine ⟨by rw [h2]; simp, png.length, le_refl _, ?_, by simp⟩
    rw [h2]
    simp
  · rw [hf] at h
    have h2 : insert_chunk_before_iend png c
        = png.take i ++ c ++ png.drop i := h
    have hi : i + 8 ≤ png.length :=
      mem_chunkOffsets png i (List.mem_of_find?_eq_some hf)
    refine ⟨?_, i, by omega, h2, by simp⟩
    rw [h2]
    simp [List.length_take, List.length_drop]
    omega

/-- C10: find_custom_chunk is total on arbitrary byte input; when the
matched chunk's declared length runs past the end of the data, the
returned slice is silently clamped to the bytes that remain and is shorter
than the declared 12 + length bytes. -/
theorem C10_find_truncated_slice (data : List Nat) (names : List (List Nat))
    (o : Nat) (hfind : findMatchOffset data names = some o)
    (hover : data.length < o + 8 + readBE32 data o + 4) :
    find_custom_chunk data names = some (chunkAt data o) ∧
    (chunkAt data o).length = data.length - o ∧
    (chunkAt data o).length < 12 + readBE32 data o := by
  have hmem := mem_chunkOffsets data o (List.mem_of_find?_eq_some hfind)
  have hlen := chunkAt_length data o
  refine ⟨?_, by omega, by omega⟩
  rw [find_custom_chunk_eq_firstMatch, hfind]
  rfl

/-- Witness for C10: truncEx declares a 100-byte chunk but only 8 bytes
remain after its offset, and find_custom_chunk returns the clamped 8-byte
slice. -/
theorem C10_witness :
    find_custom_chunk truncEx waChunkNames = some (chunkAt truncEx 8) ∧
    (chunkAt truncEx 8).length = truncEx.length - 8 ∧
    (chunkAt truncEx 8).length < 12 + readBE32 truncEx 8 :=
  C10_find_truncated_slice truncEx waChunkNames 8 findMatchOffset_truncEx
    (by decide)

/-- C5: a max_colours outside [1, 112] makes convert_image raise the
validation error with an empty effect trace: nothing has been read and no
output file is written or modified. -/
theorem C5_out_of_range_no_io
    (resize : RGBAImage → Nat × Nat → RGBAImage)
    (quantize : Nat × Nat → List (Nat × Nat × Nat) → Nat → Bool → PImage)
    (encode : PImage → Option Nat → List Nat) (mc : Int) (img : RGBAImage)
    (tb : Option (List Nat)) (tc : Option (Nat × Nat × Nat)) (dither : Bool)
    (h : mc < 1 ∨ mc > 112) :
    convertImage resize quantize encode mc img tb tc dither
      = ([], Except.error "max_colours must be between 1 and 112") := by
  unfold convertImage
  rw [if_pos h]

/-- Witness for C5 at max_colours 0: the run errors with no effects. -/
theorem C5_witness :
    convertImage sizeResize constQuantize constEncode 0 emptyImg none none
      false = ([], Except.error "max_colours must be between 1 and 112") :=
  C5_out_of_range_no_io sizeResize constQuantize constEncode 0 emptyImg none
    none false (Or.inl (by decide))

theorem addTransparency_fst_fields (q : PImage) (tc : Option (Nat × Nat × Nat)) :
    ((addTransparency q tc).1).width = q.width ∧
    ((addTransparency q tc).1).height = q.height ∧
    ((addTransparency q tc).1).indices = q.indices := by
  rcases tc with _ | c
  · exact ⟨rfl, rfl, rfl⟩
  · rw [addTransparency]
    split
    · exact ⟨rfl, rfl, rfl⟩
    · exact ⟨rfl, rfl, rfl⟩

theorem coreSrc_size (resize : RGBAImage → Nat × Nat → RGBAImage)
    (hr : ResizeContract resize) (img : RGBAImage) :
    (coreSrc resize img).width
        = (ensure_divisible_by_8 (img.width, img.height)).1 ∧
    (coreSrc resize img).height
        = (ensure_divisible_by_8 (img.width, img.height)).2 := by
  rw [coreSrc]
  split
  · exact hr img _
  · next h =>
    have h2 : ensure_divisible_by_8 (img.width, img.height)
        = (img.width, img.height) := not_ne_iff.mp h
    rw [h2]
    exact ⟨rfl, rfl⟩

theorem coreMasked_size (resize : RGBAImage → Nat × Nat → RGBAImage)
    (img : RGBAImage) (tc : Option (Nat × Nat × Nat)) :
    (coreMasked resize img tc).width = (coreSrc resize img).width ∧
    (coreMasked resize img tc).height = (coreSrc resize img).height := by
  rcases tc with _ | c
  · exact ⟨rfl, rfl⟩
  · exact ⟨rfl, rfl⟩

theorem ensure_fst_spec (w h : Nat) :
    (ensure_divisible_by_8 (w, h)).1 % 8 = 0 ∧
    (8 ≤ w → (ensure_divisible_by_8 (w, h)).1 ≤ w ∧
      w < (ensure_divisible_by_8 (w, h)).1 + 8) ∧
    (w < 8 → (ensure_divisible_by_8 (w, h)).1 = 8) := by
  have e : (ensure_divisible_by_8 (w, h)).1
      = if (w / 8) * 8 = 0 then 8 else (w / 8) * 8 := rfl
  rw [e]
  by_cases hc : (w / 8) * 8 = 0
  · rw [if_pos hc]
    omega
  · rw [if_neg hc]
    omega

theorem ensure_snd_spec (w h : Nat) :
    (ensure_divisible_by_8 (w, h)).2 % 8 = 0 ∧
    (8 ≤ h → (ensure_divisible_by_8 (w, h)).2 ≤ h ∧
      h < (ensure_divisible_by_8 (w, h)).2 + 8) ∧
    (h < 8 → (ensure_divisible_by_8 (w, h)).2 = 8) := by
  have e : (ensure_divisible_by_8 (w, h)).2
      = if (h / 8) * 8 = 0 then 8 else (h / 8) * 8 := rfl
  rw [e]
  by_cases hc : (h / 8) * 8 = 0
  · rw [if_pos hc]
    omega
  · rw [if_neg hc]
    omega

theorem savedEntryAlpha_eq_zero_iff (t j : Nat) :
    savedEntryAlpha (some t) j = 0 ↔ j = t := by
  by_cases hj : j = t
  · simp [savedEntryAlpha, hj]
  · simp [savedEntryAlpha, hj]

/-- C3: under the Pillow resize and quantize contracts, the image written
by convert_image has width and height ensure_divisible_by_8 of the input
size: each dimension is a multiple of 8 that is the largest one not
exceeding the input dimension when the input dimension is at least 8, and
is 8 when the input dimension is below 8. -/
theorem C3_output_dimensions
    (resize : RGBAImage → Nat × Nat → RGBAImage) (hr : ResizeContract resize)
    (quantize : Nat × Nat → List (Nat × Nat × Nat) → Nat → Bool → PImage)
    (hq : QuantizeContract quantize) (img : RGBAImage) (mc : Nat)
    (tc : Option (Nat × Nat × Nat)) (dither : Bool) (h1 : 1 ≤ mc) :
    (convertCore resize quantize img mc tc dither).1.width
        = (ensure_divisible_by_8 (img.width, img.height)).1 ∧
    (convertCore resize quantize img mc tc dither).1.height
        = (ensure_divisible_by_8 (img.width, img.height)).2 ∧
    (convertCore resize quantize img mc tc dither).1.width % 8 = 0 ∧
    (convertCore resize quantize img mc tc dither).1.height % 8 = 0 ∧
    (8 ≤ img.width →
      (convertCore resize quantize img mc tc dither).1.width ≤ img.width ∧
      img.width < (convertCore resize quantize img mc tc dither).1.width + 8) ∧
    (img.width < 8 →
      (convertCore resize quantize img mc tc dither).1.width = 8) ∧
    (8 ≤ img.height →
      (convertCore resize quantize img mc tc dither).1.height ≤ img.height ∧
      img.height < (convertCore resize quantize img mc tc dither).1.height + 8) ∧
    (img.height < 8 →
      (convertCore resize quantize img mc tc dither).1.height = 8) := by
  obtain ⟨hqw, hqh, _, _, _, _⟩ : QuantizeOK mc
      ((coreMasked resize img tc).width, (coreMasked resize img tc).height)
      (rgbPixels (coreMasked resize img tc))
      (coreQuantized resize quantize img mc tc dither) :=
    hq _ _ mc dither h1
  obtain ⟨hcw, hch⟩ := coreMasked_size resize img tc
  obtain ⟨hsw, hsh⟩ := coreSrc_size resize hr img
  obtain ⟨haw, hah, _⟩ :=
    addTransparency_fst_fields (coreQuantized resize quantize img mc tc dither) tc
  have hw : (convertCore resize quantize img mc tc dither).1.width
      = (ensure_divisible_by_8 (img.width, img.height)).1 := by
    have e1 : (convertCore resize quantize img mc tc dither).1.width
        = (coreQuantized resize quantize img mc tc dither).width := haw
    have e2 : (coreQuantized resize quantize img mc tc dither).width
        = (coreMasked resize img tc).width := hqw
    rw [e1, e2, hcw, hsw]
  have hh : (convertCore resize quantize img mc tc dither).1.height
      = (ensure_divisible_by_8 (img.width, img.height)).2 := by
    have e1 : (convertCore resize quantize img mc tc dither).1.height
        = (coreQuantized resize quantize img mc tc dither).height := hah
    have e2 : (coreQuantized resize quantize img mc tc dither).height
        = (coreMasked resize img tc).height := hqh
    rw [e1, e2, hch, hsh]
  obtain ⟨w1, w2, w3⟩ := ensure_fst_spec img.width img.height
  obtain ⟨t1, t2, t3⟩ := ensure_snd_spec img.width img.height
  exact ⟨hw, hh, by rw [hw]; exact w1, by rw [hh]; exact t1,
    by rw [hw]; exact w2, by rw [hw]; exact w3,
    by rw [hh]; exact t2, by rw [hh]; exact t3⟩

/-- Witness for C3: a 17 by 3 input maps to a 16 by 8 output. -/
theorem C3_witness :
    (convertCore sizeResize constQuantize c3Img 5 none false).1.width = 16 ∧
    (convertCore sizeResize constQuantize c3Img 5 none false).1.height = 8 := by
  have h := C3_output_dimensions sizeResize sizeResize_contract constQuantize
    constQuantize_contract c3Img 5 none false (by decide)
  refine ⟨?_, ?_⟩
  · rw [h.1]; decide
  · rw [h.2.1]; decide

/-- C2: under the quantize contract and max_colours in [1, 112], the
palette handed to save has at most max_colours entries and no transparency
index when no transparent colour is requested; with a transparent colour
it has k + 1 entries for some k at most max_colours, the single extra
appended entry being exactly the one the saved tRNS data marks
transparent. -/
theorem C2_palette_bound
    (resize : RGBAImage → Nat × Nat → RGBAImage)
    (quantize : Nat × Nat → List (Nat × Nat × Nat) → Nat → Bool → PImage)
    (hq : QuantizeContract quantize) (img : RGBAImage) (mc : Nat)
    (tc : Option (Nat × Nat × Nat)) (dither : Bool) (h1 : 1 ≤ mc)
    (h2 : mc ≤ 112) :
    (tc = none →
      paletteEntries (convertCore resize quantize img mc tc dither).1 ≤ mc ∧
      (convertCore resize quantize img mc tc dither).2 = none) ∧
    (∀ c, tc = some c → ∃ k, k ≤ mc ∧
      paletteEntries (convertCore resize quantize img mc tc dither).1 = k + 1 ∧
      (convertCore resize quantize img mc tc dither).2 = some k ∧
      ∀ j, (savedEntryAlpha (convertCore resize quantize img mc tc dither).2 j
        = 0 ↔ j = k)) := by
  constructor
  · intro htc
    subst htc
    obtain ⟨_, _, _, hpal, hone, _⟩ : QuantizeOK mc
        ((coreMasked resize img none).width, (coreMasked resize img none).height)
        (rgbPixels (coreMasked resize img none))
        (coreQuantized resize quantize img mc none dither) :=
      hq _ _ mc dither h1
    have e : convertCore resize quantize img mc none dither
        = (coreQuantized resize quantize img mc none dither, none) := rfl
    rw [e]
    exact ⟨by simp [paletteEntries]; omega, rfl⟩
  · intro c htc
    subst htc
    obtain ⟨_, _, _, hpal, hone, _⟩ : QuantizeOK mc
        ((coreMasked resize img (some c)).width,
         (coreMasked resize img (some c)).height)
        (rgbPixels (coreMasked resize img (some c)))
        (coreQuantized resize quantize img mc (some c) dither) :=
      hq _ _ mc dither h1
    have hlt : (coreQuantized resize quantize img mc (some c) dither).palette.length / 3
        < 256 := by omega
    have e : convertCore resize quantize img mc (some c) dither
        = addTransparency (coreQuantized resize quantize img mc (some c) dither)
            (some c) := rfl
    rw [e, addTransparency_some_eq _ c hlt]
    refine ⟨(coreQuantized resize quantize img mc (some c) dither).palette.length / 3,
      by omega, ?_, rfl, ?_⟩
    · simp only [paletteEntries, List.length_append, List.length_cons,
        List.length_nil]
      omega
    · intro j
      exact savedEntryAlpha_eq_zero_iff _ j

/-- Witness for C2: with the constant quantizer the saved palette has the
one quantized entry plus the transparent entry at index 1. -/
theorem C2_witness :
    paletteEntries (convertCore sizeResize constQuantize emptyImg 5
      (some (1, 2, 3)) false).1 = 2 ∧
    (convertCore sizeResize constQuantize emptyImg 5 (some (1, 2, 3)) false).2
      = some 1 := by
  obtain ⟨k, hk, hent, hidx, _⟩ := (C2_palette_bound sizeResize constQuantize
    constQuantize_contract emptyImg 5 (some (1, 2, 3)) false (by decide)
    (by decide)).2 (1, 2, 3) rfl
  have hc : (convertCore sizeResize constQuantize emptyImg 5 (some (1, 2, 3))
      false).2 = some 1 := by decide
  have hk1 : k = 1 := by
    have := hidx.symm.trans hc
    exact (Option.some.inj this)
  rw [hk1] at hent
  exact ⟨hent, hc⟩

/-- C1 fails on the code: under the quantize contract, whenever a
transparent colour is requested every pixel of the saved output is fully
opaque — the RGB conversion before quantization discards the computed
alpha mask and the appended transparent palette entry is referenced by no
pixel index, so pixels matching the transparent colour do not become
transparent. -/
theorem C1_every_output_pixel_opaque
    (resize : RGBAImage → Nat × Nat → RGBAImage)
    (quantize : Nat × Nat → List (Nat × Nat × Nat) → Nat → Bool → PImage)
    (hq : QuantizeContract quantize) (img : RGBAImage) (mc : Nat)
    (c : Nat × Nat × Nat) (dither : Bool) (h1 : 1 ≤ mc) (h2 : mc ≤ 112)
    (k : Nat) :
    savedEntryAlpha (convertCore resize quantize img mc (some c) dither).2
      ((convertCore resize quantize img mc (some c) dither).1.indices.getD k 0)
      = 255 := by
  obtain ⟨_, _, _, hpal, hone, hidx⟩ : QuantizeOK mc
      ((coreMasked resize img (some c)).width,
       (coreMasked resize img (some c)).height)
      (rgbPixels (coreMasked resize img (some c)))
      (coreQuantized resize quantize img mc (some c) dither) :=
    hq _ _ mc dither h1
  have hlt : (coreQuantized resize quantize img mc (some c) dither).palette.length / 3
      < 256 := by omega
  have e : convertCore resize quantize img mc (some c) dither
      = addTransparency (coreQuantized resize quantize img mc (some c) dither)
          (some c) := rfl
  rw [e, addTransparency_some_eq _ c hlt]
  have hne : (coreQuantized resize quantize img mc (some c) dither).indices.getD k 0
      ≠ (coreQuantized resize quantize img mc (some c) dither).palette.length / 3 := by
    by_cases hk : k < (coreQuantized resize quantize img mc (some c) dither).indices.length
    · have hmem : (coreQuantized resize quantize img mc (some c) dither).indices.getD k 0
          ∈ (coreQuantized resize quantize img mc (some c) dither).indices := by
        rw [List.getD_eq_getElem _ _ hk]
        exact List.getElem_mem hk
      have := hidx _ hmem
      omega
    · rw [List.getD_eq_default _ _ (by omega)]
      omega
  show savedEntryAlpha
      (some ((coreQuantized resize quantize img mc (some c) dither).palette.length / 3))
      ((coreQuantized resize quantize img mc (some c) dither).indices.getD k 0) = 255
  exact if_neg hne

/-- Witness for C1: pixel 0 of the all-black image matches the requested
transparent colour (0,0,0), yet in the saved output it is fully opaque. -/
theorem C1_witness :
    blackImg.pixels.getD 0 (1, 1, 1, 1) = (0, 0, 0, 255) ∧
    savedEntryAlpha
      (convertCore sizeResize constQuantize blackImg 112 (some (0, 0, 0)) false).2
      ((convertCore sizeResize constQuantize blackImg 112
        (some (0, 0, 0)) false).1.indices.getD 0 0) = 255 :=
  ⟨by decide,
   C1_every_output_pixel_opaque sizeResize constQuantize constQuantize_contract
     blackImg 112 (0, 0, 0) false (by decide) (by decide) 0⟩

/-- C4: a w2lv/waLV chunk found in the template is spliced verbatim into
the output immediately before the IEND chunk the scan finds; when the
template has no such chunk, the template stage leaves the output identical
to a run without a template, and at the convert_image level the written
bytes of a templated run are exactly the written bytes of the
template-free run transformed by the template stage. -/
theorem C4_template_chunk_copied
    (resize : RGBAImage → Nat × Nat → RGBAImage)
    (quantize : Nat × Nat → List (Nat × Nat × Nat) → Nat → Bool → PImage)
    (encode : PImage → Option Nat → List Nat) (img : RGBAImage)
    (tc : Option (Nat × Nat × Nat)) (dither : Bool) (mc : Int)
    (png tb : List Nat) (hmc : 1 ≤ mc ∧ mc ≤ 112) :
    (∀ c, find_custom_chunk tb waChunkNames = some c →
      ∀ i, iendOffset png = some i →
        templateStage png (some tb) = png.take i ++ c ++ png.drop i ∧
        pySlice png (i + 4) (i + 8) = iendType) ∧
    (find_custom_chunk tb waChunkNames = none →
      templateStage png (some tb) = templateStage png none) ∧
    writtenBytes (convertImage resize quantize encode mc img (some tb) tc dither)
      = (writtenBytes (convertImage resize quantize encode mc img none tc dither)).map
          (fun p => templateStage p (some tb)) := by
  refine ⟨?_, ?_, ?_⟩
  · intro c hc i hi
    have hne := find_custom_chunk_some_ne_nil tb waChunkNames c hc
    constructor
    · rcases c with _ | ⟨x, xs⟩
      · exact absurd rfl hne
      · have e : templateStage png (some tb)
            = match find_custom_chunk tb waChunkNames with
              | some c => if c.isEmpty then png
                  else insert_chunk_before_iend png c
              | none => png := rfl
        rw [hc] at e
        have e2 : templateStage png (some tb)
            = insert_chunk_before_iend png (x :: xs) := e
        rw [e2, insert_chunk_eq_iendOffset, hi]
    · have hp := List.find?_some hi
      exact of_decide_eq_true hp
  · intro hnone
    have e : templateStage png (some tb)
        = match find_custom_chunk tb waChunkNames with
          | some c => if c.isEmpty then png
              else insert_chunk_before_iend png c
          | none => png := rfl
    rw [hnone] at e
    rw [e]
    rfl
  · have hcond : ¬(mc < 1 ∨ mc > 112) := by omega
    unfold convertImage
    rw [if_neg hcond, if_neg hcond]
    simp [writtenBytes, List.findSome?, templateStage]

/-- Witness for C4 at concrete bytes: the waLV chunk of tbEx lands
immediately before the IEND chunk of pngEx at offset 20. -/
theorem C4_witness :
    templateStage pngEx (some tbEx)
      = pngEx.take 20 ++ waChunkEx ++ pngEx.drop 20 ∧
    pySlice pngEx (20 + 4) (20 + 8) = iendType :=
  (C4_template_chunk_copied sizeResize constQuantize constEncode emptyImg
    none false 5 pngEx tbEx ⟨by decide, by decide⟩).1 waChunkEx find_tbEx 20
    iendOffset_pngEx
